import Mathlib

/-!
Verification of the `starlite` route map (`starlite/route_map.py`):
a segment-keyed path-matching tree with a parallel plain-route map,
registration (`PythonRouteMap.add_routes`) and request-time resolution
(`PythonRouteMap.resolve_route` / `PythonRouteMap._traverse_route_map`).

Python strings are modelled as Lean `String` (a wrapped `List Char`);
Python dictionaries as association lists with dict update semantics
(overwrite in place, insert at the end).  Exceptions are modelled with
`Except`.  Handlers are opaque: the router never inspects them, so they
are represented by natural-number identifiers, and
`app.build_route_middleware_stack` (external to the router, spec section 1)
is the identity on these opaque handler identifiers.
-/

/-! ## Python string primitives -/

/-- The ASCII whitespace characters stripped by Python `str.strip()`. -/
def isPySpace (c : Char) : Bool :=
  c == ' ' || c == '\t' || c == '\n' || c == '\r' || c == '\x0b' || c == '\x0c'

/-- Remove the longest suffix of characters satisfying `q` (on char lists). -/
def dropEndWhile (q : Char → Bool) (l : List Char) : List Char :=
  (l.reverse.dropWhile q).reverse

/-- Python `str.strip()` on the underlying char list. -/
def pyStripL (l : List Char) : List Char :=
  dropEndWhile isPySpace (l.dropWhile isPySpace)

/-- Python `str.strip()`: remove leading and trailing whitespace. -/
def pyStrip (s : String) : String :=
  ⟨pyStripL s.data⟩

/-- Python `str.rstrip("/")`: remove every trailing `'/'`. -/
def pyRstripSlash (s : String) : String :=
  ⟨dropEndWhile (· == '/') s.data⟩

/-- Python `str.endswith("/")`. -/
def endsWithSlash (s : String) : Bool :=
  match s.data.getLast? with
  | some c => c == '/'
  | none => false

/-- One pass of Python `str.replace` on char lists.  `skip` counts pattern
characters of a just-matched occurrence that remain to be consumed; scanning
is left to right with non-overlapping matches, exactly as in CPython. -/
def pyRepAux (pat rep : List Char) (skip : Nat) : List Char → List Char
  | [] => []
  | c :: rest =>
    match skip with
    | k + 1 => pyRepAux pat rep k rest
    | 0 =>
      if pat.isPrefixOf (c :: rest) then
        rep ++ pyRepAux pat rep (pat.length - 1) rest
      else
        c :: pyRepAux pat rep 0 rest

/-- Python `s.replace(pat, rep)` for a nonempty `pat` (the route map only
ever calls `replace` with a nonempty pattern: a bracketed parameter token
during registration, a nonempty `static_path` during resolution). -/
def pyReplace (s pat rep : String) : String :=
  match pat.data with
  | [] => s
  | _ :: _ => ⟨pyRepAux pat.data rep.data 0 s.data⟩

/-- Splits a char list on `'/'`, keeping empty pieces, as Python
`str.split("/")` does. -/
def splitSlashAux (cur : List Char) : List Char → List String
  | [] => [⟨cur.reverse⟩]
  | c :: rest =>
    if c = '/' then ⟨cur.reverse⟩ :: splitSlashAux [] rest
    else splitSlashAux (c :: cur) rest

/-- Python `path.split("/")`. -/
def splitSlash (s : String) : List String :=
  splitSlashAux [] s.data

/-- Does `pat` occur as a contiguous substring of `l`? -/
def hasSub (pat : List Char) : List Char → Bool
  | [] => pat.isPrefixOf []
  | c :: rest => pat.isPrefixOf (c :: rest) || hasSub pat rest

/-- String-level substring test. -/
def hasSubStr (pat s : String) : Bool :=
  hasSub pat.data s.data

/-! ## Association lists with Python-dict semantics -/

/-- Python `d.get(k)` / guarded `d[k]`: first binding of `k`. -/
def alGet? {α : Type} (l : List (String × α)) (k : String) : Option α :=
  match l with
  | [] => none
  | (k', v) :: rest => if k' = k then some v else alGet? rest k

/-- Python `d[k] = v`: overwrite in place, or append a new binding. -/
def alSet {α : Type} (l : List (String × α)) (k : String) (v : α) :
    List (String × α) :=
  match l with
  | [] => [(k, v)]
  | (k', v') :: rest => if k' = k then (k, v) :: rest else (k', v') :: alSet rest k v

/-! ## Data model (`route_map.py` lines 20-31) -/

/-- One entry of `route.path_parameters`: the dictionaries produced by
`parse_path_params` carry the parameter name, the full bracketed token
(`"id:int"`) and the declared type. -/
structure PathParam where
  name : String
  full : String
  paramType : String
deriving DecidableEq

/-- Opaque handler identifier (`ASGIApp` values are never inspected). -/
abbrev Handler := Nat

/-- `_RouteMapLeafData`. -/
structure LeafData where
  path_parameters : List PathParam
  asgi_handlers : List (String × Handler)
  is_asgi : Bool
  static_path : String
deriving DecidableEq

/-- The default `_RouteMapLeafData()`. -/
def emptyLeaf : LeafData :=
  { path_parameters := [], asgi_handlers := [], is_asgi := false, static_path := "" }

/-- `_RouteMapTree`: children keyed by path segment, optional leaf data. -/
inductive RMTree : Type where
  | mk : List (String × RMTree) → Option LeafData → RMTree

def RMTree.children : RMTree → List (String × RMTree)
  | .mk c _ => c

def RMTree.data : RMTree → Option LeafData
  | .mk _ d => d

/-- A fresh `_RouteMapTree()`, as produced by the `defaultdict` factories. -/
def RMTree.empty : RMTree := .mk [] none

/-- The fields of `PythonRouteMap` that the routing algorithms touch:
`_plain_routes` and `_tree`. -/
structure RouteMapState where
  plain_routes : List (String × RMTree)
  tree : RMTree

/-- The state of a freshly constructed `PythonRouteMap`. -/
def emptyRM : RouteMapState :=
  { plain_routes := [], tree := RMTree.empty }

/-- The part of the `Starlite` app that `add_routes` consults. -/
structure App where
  static_paths : List String

/-- The route descriptors consumed by `add_routes`: `HTTPRoute` carries a
`route_handler_map` from method name to handler, `WebSocketRoute` and
`ASGIRoute` carry a single handler. -/
inductive BaseRoute : Type where
  | http (path : String) (path_parameters : List PathParam)
      (route_handler_map : List (String × Handler))
  | websocket (path : String) (path_parameters : List PathParam)
      (route_handler : Handler)
  | asgi (path : String) (path_parameters : List PathParam)
      (route_handler : Handler)

def BaseRoute.path : BaseRoute → String
  | .http p _ _ => p
  | .websocket p _ _ => p
  | .asgi p _ _ => p

def BaseRoute.path_parameters : BaseRoute → List PathParam
  | .http _ pp _ => pp
  | .websocket _ pp _ => pp
  | .asgi _ pp _ => pp

/-- The ASGI scope as the route map reads and writes it: `scope["type"]`,
`scope["method"]` (absent for non-HTTP connections), `scope["path"]`, and the
`scope["path_params"]` entry written during resolution. -/
structure Scope where
  type : String
  method : Option String
  path : String
  path_params : List (String × String)
deriving DecidableEq

/-- The failure kinds raised by the route map.  `methodNotAllowed` records
the data passed to the `MethodNotAllowedException` constructor. -/
inductive Exc : Type where
  | notFound
  | methodNotAllowed (allowedPayload : Option (List String))
  | improperlyConfigured (msg : String)
deriving DecidableEq

/-- Modelled from the spec: `starlite.parsers.parse_path_params` is not under
`src/`; per spec section 4.2 step 5 it binds the extracted wildcard values
positionally to the declared path parameters (by declaration order), producing
a mapping from parameter name to raw string value, with typed coercion
delegated. -/
def parse_path_params (defs : List PathParam) (values : List String) :
    List (String × String) :=
  (defs.zip values).map (fun dv => (dv.1.name, dv.2))

/-! ## Registration (`add_routes`, lines 39-78) -/

/-- `["/", *[component for component in path.split("/") if component]]`:
the synthetic root segment followed by the nonempty `/`-separated pieces.
Used identically at registration and resolution time. -/
def pathComponents (path : String) : List String :=
  "/" :: (splitSlash path).filter (fun c => c ≠ "")

/-- `path.replace("{" + param["full"] + "}", "*")` for each parameter. -/
def substituteParams (path : String) (params : List PathParam) : String :=
  params.foldl (fun p param => pyReplace p ("\x7b" ++ param.full ++ "\x7d") "*") path

/-- Lines 56-77: initialize/fetch the leaf data at the terminal node, reject
conflicting path parameters, mark static (mount) paths, and merge the route's
handlers into `asgi_handlers` (dict update: last write wins). -/
def updateLeaf (app : App) (route : BaseRoute) (substPath : String)
    (d0 : LeafData) : Except Exc LeafData :=
  if d0.path_parameters ≠ [] ∧ d0.path_parameters ≠ route.path_parameters then
    .error (.improperlyConfigured "Routes with conflicting path parameters")
  else
    let d1 := { d0 with path_parameters := route.path_parameters }
    let d2 :=
      if substPath ∈ app.static_paths then
        { d1 with is_asgi := true, static_path := substPath }
      else d1
    match route with
    | .http _ _ hmap =>
        .ok { d2 with
                asgi_handlers := hmap.foldl (fun hs mh => alSet hs mh.1 mh.2) d2.asgi_handlers }
    | .websocket _ _ h =>
        .ok { d2 with asgi_handlers := alSet d2.asgi_handlers "websocket" h }
    | .asgi _ _ h =>
        .ok { d2 with asgi_handlers := alSet d2.asgi_handlers "asgi" h,
                      is_asgi := true }

/-- Descend/create tree nodes for each component (the `defaultdict` children
auto-vivify on indexing) and apply the leaf update at the terminal node. -/
def insertInto : RMTree → List String → (LeafData → Except Exc LeafData) →
    Except Exc RMTree
  | t, [], f =>
    match f (t.data.getD emptyLeaf) with
    | .error e => .error e
    | .ok d => .ok (.mk t.children (some d))
  | t, c :: rest, f =>
    let child := (alGet? t.children c).getD RMTree.empty
    match insertInto child rest f with
    | .error e => .error e
    | .ok child' => .ok (.mk (alSet t.children c child') t.data)

/-- One iteration of the `for route in routes` loop of `add_routes`. -/
def addRoute (app : App) (st : RouteMapState) (route : BaseRoute) :
    Except Exc RouteMapState :=
  let path := route.path
  if route.path_parameters ≠ [] ∨ path ∈ app.static_paths then
    let spath := substituteParams path route.path_parameters
    match insertInto st.tree (pathComponents spath) (updateLeaf app route spath) with
    | .error e => .error e
    | .ok t => .ok { st with tree := t }
  else
    let cur := (alGet? st.plain_routes path).getD RMTree.empty
    match updateLeaf app route path (cur.data.getD emptyLeaf) with
    | .error e => .error e
    | .ok d =>
        .ok { st with
                plain_routes := alSet st.plain_routes path (.mk cur.children (some d)) }

/-- `PythonRouteMap.add_routes`. -/
def addRoutes (app : App) (st : RouteMapState) : List BaseRoute →
    Except Exc RouteMapState
  | [] => .ok st
  | r :: rs =>
    match addRoute app st r with
    | .error e => .error e
    | .ok st' => addRoutes app st' rs

/-! ## Resolution (`resolve_route` lines 80-107, `_traverse_route_map` 109-133) -/

/-- Lines 85-87: `path = scope["path"].strip()`, then strip trailing slashes
unless the path is exactly `"/"`. -/
def normalizePath (raw : String) : String :=
  let path := pyStrip raw
  if (path != "/") && endsWithSlash path then pyRstripSlash path else path

/-- `_traverse_route_map`, in state-passing form.  The traversal walks the
component list; child dictionaries are threaded back so that any write to the
tree during resolution would be observable (the source only ever reads them,
under `in`-guards, so no `defaultdict` auto-vivification can occur).  Returns
the (possibly rewritten) tree together with either `NotFoundException` or the
terminal node, the collected wildcard values, and the outward `scope["path"]`
after any mount-prefix rewriting. -/
def traverseSt : List String → RMTree → List String → String →
    RMTree × Except Exc (RMTree × List String × String)
  | [], cur, pp, sp => (cur, .ok (cur, pp, sp))
  | c :: rest, cur, pp, sp =>
    match alGet? cur.children c with
    | some child =>
      let r := traverseSt rest child pp sp
      (.mk (alSet cur.children c r.1) cur.data, r.2)
    | none =>
      match alGet? cur.children "*" with
      | some child =>
        let r := traverseSt rest child (pp ++ [c]) sp
        (.mk (alSet cur.children "*" r.1) cur.data, r.2)
      | none =>
        match cur.data with
        | some d =>
          if d.static_path ≠ "" then
            traverseSt rest cur pp
              (if d.static_path ≠ "/" then pyReplace sp d.static_path "" else sp)
          else (cur, .error .notFound)
        | none => (cur, .error .notFound)

/-- Lines 85-94: normalize the path, try the plain-route map (membership is
checked before indexing the `defaultdict`, so the miss case never vivifies),
else traverse the tree.  Produces the matched node, the wildcard values, and
the scope with any mount rewrite applied to its raw path. -/
def matchPath (st : RouteMapState) (sc : Scope) :
    RouteMapState × Except Exc (RMTree × List String × Scope) :=
  let path := normalizePath sc.path
  match alGet? st.plain_routes path with
  | some cur => (st, .ok (cur, [], sc))
  | none =>
    let t := traverseSt (pathComponents path) st.tree [] sc.path
    ({ st with tree := t.1 },
      match t.2 with
      | .error e => .error e
      | .ok r => .ok (r.1, r.2.1, { sc with path := r.2.2 }))

/-- Lines 95-107: fail `NotFound` on a data-less node, write
`scope["path_params"]`, then dispatch: mounts return their `"asgi"` handler
(a missing key is a `KeyError`, caught blanketly as `NotFound`); HTTP scopes
look up `scope["method"]` (missing method key raises
`MethodNotAllowedException()`, constructed with no arguments); everything
else looks up the `"websocket"` handler (missing key again `NotFound`). -/
def dispatchHandler (cur : RMTree) (path_params : List String) (sc : Scope) :
    Except Exc (Handler × Scope) :=
  match cur.data with
  | none => .error .notFound
  | some data =>
    let sc1 := { sc with path_params := parse_path_params data.path_parameters path_params }
    if data.is_asgi then
      match alGet? data.asgi_handlers "asgi" with
      | some h => .ok (h, sc1)
      | none => .error .notFound
    else if sc1.type = "http" then
      match sc1.method with
      | none => .error .notFound
      | some m =>
        match alGet? data.asgi_handlers m with
        | some h => .ok (h, sc1)
        | none => .error (.methodNotAllowed none)
    else
      match alGet? data.asgi_handlers "websocket" with
      | some h => .ok (h, sc1)
      | none => .error .notFound

/-- `PythonRouteMap.resolve_route`, in state-passing form: the returned
`RouteMapState` is the route map's state after the call. -/
def resolveRouteSt (st : RouteMapState) (sc : Scope) :
    RouteMapState × Except Exc (Handler × Scope) :=
  let m := matchPath st sc
  (m.1,
    match m.2 with
    | .error e => .error e
    | .ok r => dispatchHandler r.1 r.2.1 r.2.2)

/-- `PythonRouteMap.resolve_route`: the handler for this scope, or a failure. -/
def resolve_route (st : RouteMapState) (sc : Scope) : Except Exc (Handler × Scope) :=
  (resolveRouteSt st sc).2

/-- The observable resolution outcome: the returned handler and the bound path
parameters (or the failure), disregarding the scope's raw-path field. -/
def resolveOutcome (st : RouteMapState) (sc : Scope) :
    Except Exc (Handler × List (String × String)) :=
  (resolve_route st sc).map (fun r => (r.1, r.2.path_params))

/-! ## Derived observations and spec-side comparison definitions -/

/-- Follow exact literal child matches only (the registration-time shape of a
path already present in the tree). -/
def reachesLit : RMTree → List String → Option RMTree
  | t, [] => some t
  | t, c :: rest =>
    match alGet? t.children c with
    | some child => reachesLit child rest
    | none => none

/-- The leaf data at the end of a component descent with `defaultdict`
semantics (missing children read as empty nodes), mirroring the descent used
by `add_routes`. -/
def dataAt : RMTree → List String → Option LeafData
  | t, [] => t.data
  | t, c :: rest => dataAt ((alGet? t.children c).getD RMTree.empty) rest

/-- The claim's reading of path normalization, for comparison with
`normalizePath`: strip whitespace, then a SINGLE trailing slash unless the
path is exactly `"/"`. -/
def normalizeSingleStripSpec (raw : String) : String :=
  let path := pyStrip raw
  if (path != "/") && endsWithSlash path then ⟨path.data.dropLast⟩ else path

/-- Projection of a traversal result onto its raw-path-independent part:
the matched node and the wildcard values. -/
def travOutcome (r : Except Exc (RMTree × List String × String)) :
    Except Exc (RMTree × List String) :=
  r.map (fun x => (x.1, x.2.1))

/-! ## Concrete routers used by the claims -/

def app0 : App := ⟨[]⟩

def appStatic : App := ⟨["/static"]⟩

/-- The router obtained by registering a static-files mount at `/static`. -/
def stStatic : RouteMapState :=
  { plain_routes := [],
    tree := .mk [("/", .mk [("static",
      .mk [] (some { path_parameters := [], asgi_handlers := [("asgi", 7)],
                     is_asgi := true, static_path := "/static" }))] none)] none }

/-- The router obtained by registering a parameter-free HTTP route `/items`
with a `GET` handler. -/
def stItems : RouteMapState :=
  { plain_routes := [("/items", .mk [] (some
      { path_parameters := [], asgi_handlers := [("GET", 5)],
        is_asgi := false, static_path := "" }))],
    tree := RMTree.empty }

def ppy : PathParam := ⟨"y", "y:str", "str"⟩

def ppx : PathParam := ⟨"x", "x:str", "str"⟩

def rAmb1 : BaseRoute := .http "/a/b/\x7by:str\x7d" [ppy] [("GET", 1)]

def rAmb2 : BaseRoute := .http "/a/\x7bx:str\x7d/c/d" [ppx] [("GET", 2)]

/-- The router with `/a/b/{y}` and `/a/{x}/c/d` registered: an ambiguous
layout that would need backtracking to resolve `/a/b/c/d`. -/
def stAmbig : RouteMapState :=
  { plain_routes := [],
    tree := .mk [("/", .mk [("a", .mk
      [("b", .mk [("*", .mk [] (some ⟨[ppy], [("GET", 1)], false, ""⟩))] none),
       ("*", .mk [("c", .mk [("d", .mk [] (some ⟨[ppx], [("GET", 2)], false, ""⟩))] none)] none)]
      none)] none)] none }

/-- The router with a root route `/` carrying a `GET` handler. -/
def stRoot : RouteMapState :=
  { plain_routes := [("/", .mk [] (some ⟨[], [("GET", 42)], false, ""⟩))],
    tree := RMTree.empty }

def rDup1 : BaseRoute := .http "/t/\x7bx:str\x7d" [ppx] [("GET", 11)]

def rDup2 : BaseRoute := .http "/t/\x7bx:str\x7d" [ppx] [("GET", 12)]

/-- The router after registering `/t/{x}` twice with a `GET` handler; the
second registration overwrote the first. -/
def stDup : RouteMapState :=
  { plain_routes := [],
    tree := .mk [("/", .mk [("t",
      .mk [("*", .mk [] (some ⟨[ppx], [("GET", 12)], false, ""⟩))] none)] none)] none }

def rAx : BaseRoute := .http "/a/\x7bx:str\x7d" [ppx] [("GET", 1)]

def rAy : BaseRoute := .http "/a/\x7by:str\x7d" [ppy] [("GET", 2)]

/-- The router with `/a/{x}` registered. -/
def stAx : RouteMapState :=
  { plain_routes := [],
    tree := .mk [("/", .mk [("a",
      .mk [("*", .mk [] (some ⟨[ppx], [("GET", 1)], false, ""⟩))] none)] none)] none }

def appS2 : App := ⟨["/s"]⟩

/-- The router where an HTTP route was registered on the static path `/s`:
its leaf is a mount (`is_asgi`) but has no `"asgi"` handler. -/
def stS2 : RouteMapState :=
  { plain_routes := [],
    tree := .mk [("/", .mk [("s",
      .mk [] (some ⟨[], [("GET", 9)], true, "/s"⟩))] none)] none }

/-! ## Association-list lemmas -/

theorem alGet?_alSet_self {α : Type} (l : List (String × α)) (k : String) (v : α) :
    alGet? (alSet l k v) k = some v := by
  induction l with
  | nil => simp [alSet, alGet?]
  | cons hd tl ih =>
    obtain ⟨k', v'⟩ := hd
    by_cases h : k' = k
    · simp [alSet, alGet?, h]
    · simp [alSet, alGet?, h, ih]

theorem alSet_of_alGet? {α : Type} {l : List (String × α)} {k : String} {v : α}
    (h : alGet? l k = some v) : alSet l k v = l := by
  induction l with
  | nil => simp [alGet?] at h
  | cons hd tl ih =>
    obtain ⟨k', v'⟩ := hd
    by_cases hk : k' = k
    · simp only [alGet?, if_pos hk] at h
      obtain rfl : v' = v := Option.some_injective _ h
      simp [alSet, if_pos hk, hk]
    · simp only [alGet?, if_neg hk] at h
      simp [alSet, if_neg hk, ih h]

/-! ## Traversal lemmas -/

/-- Resolution-time traversal returns the tree it was given: every child
binding is written back with its original value. -/
theorem traverseSt_fst (comps : List String) :
    ∀ (cur : RMTree) (pp : List String) (sp : String),
      (traverseSt comps cur pp sp).1 = cur := by
  induction comps with
  | nil => intro cur pp sp; rfl
  | cons c rest ih =>
    intro cur pp sp
    obtain ⟨children, dt⟩ := cur
    simp only [traverseSt, RMTree.children, RMTree.data]
    cases h : alGet? children c with
    | some child =>
      simp only [ih]
      exact congrArg (fun l => RMTree.mk l dt) (alSet_of_alGet? h)
    | none =>
      cases h2 : alGet? children "*" with
      | some child =>
        simp only [ih]
        exact congrArg (fun l => RMTree.mk l dt) (alSet_of_alGet? h2)
      | none =>
        cases hd : dt with
        | some d =>
          by_cases hsp : d.static_path ≠ ""
          · simp only [if_pos hsp, ih]
          · simp only [if_neg hsp]
        | none => rfl

/-- A literal child match is always taken: the traversal of `c :: rest`
continues from the literal child, leaving the wildcard-value list unchanged. -/
theorem traverseSt_lit_step (cur child : RMTree) (c : String)
    (rest pp : List String) (sp : String)
    (h : alGet? cur.children c = some child) :
    (traverseSt (c :: rest) cur pp sp).2 = (traverseSt rest child pp sp).2 := by
  obtain ⟨children, dt⟩ := cur
  simp only [RMTree.children] at h
  simp only [traverseSt, RMTree.children, h]

/-- With no literal match, the wildcard child is taken and the literal
segment value is appended to the wildcard-value list. -/
theorem traverseSt_wild_step (cur child : RMTree) (c : String)
    (rest pp : List String) (sp : String)
    (h : alGet? cur.children c = none) (h2 : alGet? cur.children "*" = some child) :
    (traverseSt (c :: rest) cur pp sp).2 = (traverseSt rest child (pp ++ [c]) sp).2 := by
  obtain ⟨children, dt⟩ := cur
  simp only [RMTree.children] at h h2
  simp only [traverseSt, RMTree.children, h, h2]

/-- The only failure the traversal can produce is `NotFoundException`. -/
theorem traverseSt_error_notFound (comps : List String) :
    ∀ (cur : RMTree) (pp : List String) (sp : String) (e : Exc),
      (traverseSt comps cur pp sp).2 = .error e → e = .notFound := by
  induction comps with
  | nil => intro cur pp sp e h; simp [traverseSt] at h
  | cons c rest ih =>
    intro cur pp sp e h
    obtain ⟨children, dt⟩ := cur
    simp only [traverseSt, RMTree.children, RMTree.data] at h
    cases h1 : alGet? children c with
    | some child =>
      simp only [h1] at h
      exact ih child pp sp e h
    | none =>
      simp only [h1] at h
      cases h2 : alGet? children "*" with
      | some child =>
        simp only [h2] at h
        exact ih child (pp ++ [c]) sp e h
      | none =>
        simp only [h2] at h
        cases dt with
        | some d =>
          simp only [] at h
          by_cases hsp : d.static_path ≠ ""
          · rw [if_pos hsp] at h
            exact ih _ pp _ e h
          · rw [if_neg hsp] at h
            injection h with h
            exact h.symm
        | none =>
          simp only [] at h
          injection h with h
          exact h.symm

/-- The matched node and the wildcard values do not depend on the raw scope
path handed to the traversal (only the rewritten outward path does). -/
theorem traverseSt_travOutcome (comps : List String) :
    ∀ (cur : RMTree) (pp : List String) (sp sp' : String),
      travOutcome (traverseSt comps cur pp sp).2 =
        travOutcome (traverseSt comps cur pp sp').2 := by
  induction comps with
  | nil => intro cur pp sp sp'; rfl
  | cons c rest ih =>
    intro cur pp sp sp'
    obtain ⟨children, dt⟩ := cur
    simp only [traverseSt, RMTree.children, RMTree.data]
    cases h1 : alGet? children c with
    | some child => exact ih child pp sp sp'
    | none =>
      cases h2 : alGet? children "*" with
      | some child => exact ih child (pp ++ [c]) sp sp'
      | none =>
        cases hd : dt with
        | some d =>
          by_cases hsp : d.static_path ≠ ""
          · simp only [if_pos hsp]
            exact ih _ pp _ _
          · simp only [if_neg hsp]
        | none => rfl

/-- Following already-registered literal segments: the traversal of
`pcs ++ rest` continues from the node reached by the literal descent. -/
theorem traverseSt_follow (pcs : List String) :
    ∀ (cur n : RMTree) (rest pp : List String) (sp : String),
      reachesLit cur pcs = some n →
      (traverseSt (pcs ++ rest) cur pp sp).2 = (traverseSt rest n pp sp).2 := by
  induction pcs with
  | nil =>
    intro cur n rest pp sp h
    obtain rfl : cur = n := by simpa [reachesLit] using h
    rfl
  | cons c pcs' ih =>
    intro cur n rest pp sp h
    simp only [reachesLit] at h
    cases h1 : alGet? cur.children c with
    | some child =>
      rw [h1] at h
      rw [List.cons_append, traverseSt_lit_step cur child c _ pp sp h1]
      exact ih child n rest pp sp h
    | none => rw [h1] at h; exact absurd h (by simp)

/-! ## Replacement lemmas -/

theorem isPrefixOf_append_self (l t : List Char) : l.isPrefixOf (l ++ t) = true := by
  induction l with
  | nil => simp [List.isPrefixOf]
  | cons c cs ih => simp [List.isPrefixOf, ih]

theorem pyRepAux_skip (pat rep : List Char) (xs : List Char) :
    ∀ (l : List Char), pyRepAux pat rep xs.length (xs ++ l) = pyRepAux pat rep 0 l := by
  induction xs with
  | nil => intro l; rfl
  | cons x xs ih =>
    intro l
    simp only [List.length_cons, List.cons_append, pyRepAux]
    exact ih l

/-- A leading occurrence of the pattern is consumed and replaced. -/
theorem pyRepAux_eat (p : Char) (ps rep l : List Char) :
    pyRepAux (p :: ps) rep 0 ((p :: ps) ++ l) =
      rep ++ pyRepAux (p :: ps) rep 0 l := by
  have hpre : (p :: ps).isPrefixOf (p :: (ps ++ l)) = true :=
    isPrefixOf_append_self (p :: ps) l
  simp only [List.cons_append, pyRepAux, List.append_eq]
  rw [if_pos hpre]
  have hlen : (p :: ps).length - 1 = ps.length := by simp
  rw [hlen]
  exact congrArg (rep ++ ·) (pyRepAux_skip (p :: ps) rep ps l)

/-- Replacement is the identity when the pattern does not occur. -/
theorem pyRepAux_no_occur (pat rep : List Char) :
    ∀ (l : List Char), hasSub pat l = false → pyRepAux pat rep 0 l = l := by
  intro l
  induction l with
  | nil => intro _; rfl
  | cons c rest ih =>
    intro h
    simp only [hasSub, Bool.or_eq_false_iff] at h
    simp only [pyRepAux, h.1, Bool.false_eq_true, if_false]
    exact congrArg (c :: ·) (ih h.2)

/-- `(p ++ suffix).replace(p, "") = suffix` when `p` is nonempty and does not
occur in `suffix`. -/
theorem pyReplace_eat (p suffix : String) (hp : p ≠ "")
    (hocc : hasSubStr p suffix = false) :
    pyReplace (p ++ suffix) p "" = suffix := by
  obtain ⟨pl⟩ := p
  obtain ⟨sl⟩ := suffix
  cases pl with
  | nil => exact absurd rfl hp
  | cons c cs =>
    show pyReplace ⟨(c :: cs) ++ sl⟩ ⟨c :: cs⟩ "" = ⟨sl⟩
    simp only [pyReplace]
    rw [pyRepAux_eat c cs [] sl, pyRepAux_no_occur _ _ sl hocc]
    rfl

/-- `s.replace(p, "") = s` when `p` does not occur in `s`. -/
theorem pyReplace_noop (p s : String) (hocc : hasSubStr p s = false) :
    pyReplace s p "" = s := by
  obtain ⟨pl⟩ := p
  cases pl with
  | nil => rfl
  | cons c cs =>
    simp only [pyReplace]
    rw [pyRepAux_no_occur _ _ s.data hocc]

/-! ## Mount absorption -/

/-- Once the traversal sits on a mount node whose remaining segments match no
child and no wildcard, and the scope path is already free of the mount
pattern, every remaining segment is absorbed and the path stays fixed. -/
theorem traverseSt_mount_loop (n : RMTree) (d : LeafData)
    (hdata : n.data = some d) (hsp0 : d.static_path ≠ "")
    (hstar : alGet? n.children "*" = none) :
    ∀ (rest : List String) (pp : List String) (sp : String),
      (∀ r ∈ rest, alGet? n.children r = none) →
      (if d.static_path ≠ "/" then pyReplace sp d.static_path "" else sp) = sp →
      (traverseSt rest n pp sp).2 = .ok (n, pp, sp) := by
  intro rest
  induction rest with
  | nil => intro pp sp _ _; rfl
  | cons r rest' ih =>
    intro pp sp hchild hfix
    obtain ⟨children, dt⟩ := n
    simp only [RMTree.children] at hstar
    simp only [RMTree.data] at hdata
    subst hdata
    have h1 : alGet? children r = none := by
      simpa [RMTree.children] using hchild r (List.mem_cons_self r rest')
    simp only [traverseSt, RMTree.children, RMTree.data, h1, hstar]
    rw [if_pos hsp0, hfix]
    exact ih pp sp (fun x hx => hchild x (List.mem_cons_of_mem r hx)) hfix

/-! ## Insertion lemmas -/

theorem insertInto_error (comps : List String) :
    ∀ (t : RMTree) (f : LeafData → Except Exc LeafData) (e : Exc),
      f ((dataAt t comps).getD emptyLeaf) = .error e →
      insertInto t comps f = .error e := by
  induction comps with
  | nil =>
    intro t f e h
    simp only [dataAt] at h
    simp only [insertInto, h]
  | cons c rest ih =>
    intro t f e h
    simp only [dataAt] at h
    simp only [insertInto, ih _ f e h]

theorem insertInto_ok (comps : List String) :
    ∀ (t : RMTree) (f : LeafData → Except Exc LeafData) (d : LeafData),
      f ((dataAt t comps).getD emptyLeaf) = .ok d →
      ∃ t', insertInto t comps f = .ok t' := by
  induction comps with
  | nil =>
    intro t f d h
    simp only [dataAt] at h
    exact ⟨.mk t.children (some d), by simp only [insertInto, h]⟩
  | cons c rest ih =>
    intro t f d h
    simp only [dataAt] at h
    obtain ⟨t', ht'⟩ := ih _ f d h
    exact ⟨.mk (alSet t.children c t') t.data, by simp only [insertInto, ht']⟩

/-! ## Resolution plumbing lemmas -/

/-- The lookup phase returns the state it was given. -/
theorem matchPath_fst (st : RouteMapState) (sc : Scope) :
    (matchPath st sc).1 = st := by
  simp only [matchPath]
  cases h : alGet? st.plain_routes (normalizePath sc.path) with
  | some cur => rfl
  | none => simp only [traverseSt_fst]

/-- The lookup phase only rewrites the scope's path: type and method (and
the not-yet-written path parameters) are those of the request. -/
theorem matchPath_scope (st : RouteMapState) (sc : Scope) (cur : RMTree)
    (pps : List String) (sc' : Scope)
    (h : (matchPath st sc).2 = .ok (cur, pps, sc')) :
    sc'.type = sc.type ∧ sc'.method = sc.method ∧ sc'.path_params = sc.path_params := by
  simp only [matchPath] at h
  cases h1 : alGet? st.plain_routes (normalizePath sc.path) with
  | some c0 =>
    simp only [h1] at h
    obtain ⟨-, -, h3⟩ := by simpa [Prod.ext_iff] using h
    rw [← h3]
    exact ⟨rfl, rfl, rfl⟩
  | none =>
    simp only [h1] at h
    cases h2 : (traverseSt (pathComponents (normalizePath sc.path)) st.tree [] sc.path).2 with
    | error e => rw [h2] at h; simp at h
    | ok r =>
      rw [h2] at h
      simp only [Except.ok.injEq, Prod.ext_iff] at h
      obtain ⟨-, -, h3⟩ := h
      rw [← h3]
      exact ⟨rfl, rfl, rfl⟩

/-- The lookup phase can only fail with `NotFound`. -/
theorem matchPath_error_notFound (st : RouteMapState) (sc : Scope) (e : Exc)
    (h : (matchPath st sc).2 = .error e) : e = .notFound := by
  simp only [matchPath] at h
  cases h1 : alGet? st.plain_routes (normalizePath sc.path) with
  | some c0 => simp only [h1] at h; simp at h
  | none =>
    simp only [h1] at h
    cases h2 : (traverseSt (pathComponents (normalizePath sc.path)) st.tree [] sc.path).2 with
    | error e' =>
      rw [h2] at h
      obtain rfl : e' = e := by simpa using h
      exact traverseSt_error_notFound _ _ _ _ _ h2
    | ok r => rw [h2] at h; simp at h

/-- The dispatch outcome (handler / failure and the bound parameters) depends
on the scope only through its type and method. -/
theorem dispatchHandler_outcome (cur : RMTree) (pps : List String) (sc1 sc2 : Scope)
    (ht : sc1.type = sc2.type) (hm : sc1.method = sc2.method) :
    (dispatchHandler cur pps sc1).map (fun r => (r.1, r.2.path_params)) =
      (dispatchHandler cur pps sc2).map (fun r => (r.1, r.2.path_params)) := by
  simp only [dispatchHandler]
  cases cur.data with
  | none => rfl
  | some data =>
    simp only [ht, hm]
    by_cases ha : data.is_asgi
    · simp only [if_pos ha]
      cases alGet? data.asgi_handlers "asgi" with
      | some h => rfl
      | none => rfl
    · simp only [if_neg ha]
      by_cases hh : sc2.type = "http"
      · simp only [if_pos hh]
        cases sc2.method with
        | none => rfl
        | some m =>
          cases halg : alGet? data.asgi_handlers m with
          | some h => simp [halg, Except.map]
          | none => simp [halg, Except.map]
      · simp only [if_neg hh]
        cases alGet? data.asgi_handlers "websocket" with
        | some h => rfl
        | none => rfl

/-- The resolution outcome depends on the request only through the normalized
path, the scope type, and the method. -/
theorem resolveOutcome_congr (st : RouteMapState) (sc1 sc2 : Scope)
    (hnorm : normalizePath sc1.path = normalizePath sc2.path)
    (ht : sc1.type = sc2.type) (hm : sc1.method = sc2.method) :
    resolveOutcome st sc1 = resolveOutcome st sc2 := by
  simp only [resolveOutcome, resolve_route, resolveRouteSt, matchPath, hnorm]
  cases h : alGet? st.plain_routes (normalizePath sc2.path) with
  | some cur =>
    simp only [h]
    exact dispatchHandler_outcome cur [] sc1 sc2 ht hm
  | none =>
    simp only [h]
    have htrav := traverseSt_travOutcome (pathComponents (normalizePath sc2.path))
      st.tree [] sc1.path sc2.path
    cases h1 : (traverseSt (pathComponents (normalizePath sc2.path)) st.tree [] sc1.path).2 with
    | error e1 =>
      cases h2 : (traverseSt (pathComponents (normalizePath sc2.path)) st.tree [] sc2.path).2 with
      | error e2 =>
        rw [h1, h2] at htrav
        obtain rfl : e1 = e2 := by simpa [travOutcome, Except.map] using htrav
        rfl
      | ok r2 =>
        rw [h1, h2] at htrav
        simp [travOutcome, Except.map] at htrav
    | ok r1 =>
      cases h2 : (traverseSt (pathComponents (normalizePath sc2.path)) st.tree [] sc2.path).2 with
      | error e2 =>
        rw [h1, h2] at htrav
        simp [travOutcome, Except.map] at htrav
      | ok r2 =>
        rw [h1, h2] at htrav
        simp only [travOutcome, Except.map, Except.ok.injEq, Prod.ext_iff] at htrav
        obtain ⟨hn, hp⟩ := htrav
        simp only []
        rw [show r1.1 = r2.1 from hn, show r1.2.1 = r2.2.1 from hp]
        exact dispatchHandler_outcome r2.1 r2.2.1 _ _ ht hm

/-! ## Strip lemmas -/

theorem exists_dropWhile_append (q : Char → Bool) (l : List Char) :
    ∃ s, l = s ++ l.dropWhile q := by
  induction l with
  | nil => exact ⟨[], rfl⟩
  | cons c t ih =>
    by_cases h : q c
    · obtain ⟨s, hs⟩ := ih
      exact ⟨c :: s, by rw [List.dropWhile_cons, if_pos h, List.cons_append, ← hs]⟩
    · exact ⟨[], by rw [List.dropWhile_cons, if_neg h, List.nil_append]⟩

theorem dropWhile_head_false (q : Char → Bool) (l : List Char) (c : Char)
    (t : List Char) (h : l.dropWhile q = c :: t) : q c = false := by
  induction l with
  | nil => simp [List.dropWhile] at h
  | cons a l' ih =>
    rw [List.dropWhile_cons] at h
    by_cases ha : q a
    · rw [if_pos ha] at h; exact ih h
    · rw [if_neg ha] at h
      obtain ⟨rfl, -⟩ := List.cons.inj h
      simpa using ha

theorem exists_dropEndWhile_append (q : Char → Bool) (l : List Char) :
    ∃ t, l = dropEndWhile q l ++ t := by
  obtain ⟨s, hs⟩ := exists_dropWhile_append q l.reverse
  refine ⟨s.reverse, ?_⟩
  unfold dropEndWhile
  calc l = l.reverse.reverse := (List.reverse_reverse l).symm
    _ = (s ++ l.reverse.dropWhile q).reverse := by rw [← hs]
    _ = (l.reverse.dropWhile q).reverse ++ s.reverse := by rw [List.reverse_append]

theorem dropWhile_dropWhile (q : Char → Bool) (l : List Char) :
    (l.dropWhile q).dropWhile q = l.dropWhile q := by
  induction l with
  | nil => rfl
  | cons c t ih =>
    rw [List.dropWhile_cons]
    by_cases h : q c
    · simpa [h] using ih
    · simp [List.dropWhile_cons, h]

theorem dropWhile_pyStripL (l : List Char) :
    (pyStripL l).dropWhile isPySpace = pyStripL l := by
  unfold pyStripL
  cases hr : dropEndWhile isPySpace (l.dropWhile isPySpace) with
  | nil => rfl
  | cons c t =>
    obtain ⟨tt, htt⟩ := exists_dropEndWhile_append isPySpace (l.dropWhile isPySpace)
    rw [hr] at htt
    have hq : isPySpace c = false :=
      dropWhile_head_false isPySpace l c (t ++ tt) (by simpa using htt)
    simp [List.dropWhile_cons, hq]

theorem dropEndWhile_idem (q : Char → Bool) (l : List Char) :
    dropEndWhile q (dropEndWhile q l) = dropEndWhile q l := by
  unfold dropEndWhile
  rw [List.reverse_reverse, dropWhile_dropWhile]

theorem pyStripL_idem (l : List Char) : pyStripL (pyStripL l) = pyStripL l := by
  conv_lhs => rw [pyStripL]
  rw [dropWhile_pyStripL]
  show dropEndWhile isPySpace (pyStripL l) = pyStripL l
  unfold pyStripL
  exact dropEndWhile_idem isPySpace _

theorem pyStrip_idem (s : String) : pyStrip (pyStrip s) = pyStrip s := by
  simp [pyStrip, pyStripL_idem]

/-- Whitespace stripping happens before, and in addition to, the
trailing-slash normalization: pre-stripping the path does not change the
normalized result. -/
theorem normalizePath_pyStrip (s : String) :
    normalizePath (pyStrip s) = normalizePath s := by
  simp only [normalizePath, pyStrip_idem]

theorem length_dropWhile_le' (q : Char → Bool) (l : List Char) :
    (l.dropWhile q).length ≤ l.length := by
  obtain ⟨s, hs⟩ := exists_dropWhile_append q l
  calc (l.dropWhile q).length ≤ s.length + (l.dropWhile q).length := Nat.le_add_left _ _
    _ = l.length := by rw [← List.length_append, ← hs]

theorem dropWhile_eq_self_of_pyStripL (l : List Char) (h : pyStripL l = l) :
    l.dropWhile isPySpace = l := by
  obtain ⟨s, hs⟩ := exists_dropWhile_append isPySpace l
  have hlen : (l.dropWhile isPySpace).length ≤ l.length := length_dropWhile_le' _ _
  have hlen2 : l.length ≤ (l.dropWhile isPySpace).length := by
    conv_lhs => rw [← h]
    unfold pyStripL dropEndWhile
    calc ((l.dropWhile isPySpace).reverse.dropWhile isPySpace).reverse.length
        = ((l.dropWhile isPySpace).reverse.dropWhile isPySpace).length := List.length_reverse _
      _ ≤ (l.dropWhile isPySpace).reverse.length := length_dropWhile_le' _ _
      _ = (l.dropWhile isPySpace).length := List.length_reverse _
  have hslen : s.length = 0 := by
    have := congrArg List.length hs
    rw [List.length_append] at this
    omega
  rw [List.eq_nil_of_length_eq_zero hslen, List.nil_append] at hs
  exact hs.symm

/-- For a nonempty, whitespace-clean path without a trailing slash, the
normalizer leaves `p` alone and maps `p ++ "/"` back to `p`. -/
theorem normalizePath_slash_variant (p : String) (hne : p ≠ "")
    (hstrip : pyStrip p = p) (hslash : endsWithSlash p = false) :
    normalizePath p = p ∧ normalizePath (p ++ "/") = p := by
  have hdata_ne : p.data ≠ [] := fun h => hne (String.ext h)
  have hstripL : pyStripL p.data = p.data := congrArg String.data hstrip
  have hdwf : p.data.dropWhile isPySpace = p.data :=
    dropWhile_eq_self_of_pyStripL p.data hstripL
  constructor
  · simp only [normalizePath, hstrip, hslash, Bool.and_false, Bool.false_eq_true,
      if_false]
  · cases hcons : p.data with
    | nil => exact absurd hcons hdata_ne
    | cons c t =>
      have hc : isPySpace c = false :=
        dropWhile_head_false isPySpace p.data c t (hdwf.trans hcons)
      have hdata2 : (p ++ "/").data = p.data ++ ['/'] := String.data_append p "/"
      have hstrip2 : pyStripL (p.data ++ ['/']) = p.data ++ ['/'] := by
        unfold pyStripL dropEndWhile
        have h1 : (p.data ++ ['/']).dropWhile isPySpace = p.data ++ ['/'] := by
          rw [hcons, List.cons_append, List.dropWhile_cons]
          simp [hc]
        rw [h1, List.reverse_append]
        have h2 : (['/'] : List Char).reverse ++ p.data.reverse = '/' :: p.data.reverse := by
          simp
        rw [h2, List.dropWhile_cons]
        simp [show isPySpace '/' = false from rfl]
      have hstripS : pyStrip (p ++ "/") = p ++ "/" := by
        apply String.ext
        show pyStripL (p ++ "/").data = (p ++ "/").data
        rw [hdata2, hstrip2]
      have hneq : ((p ++ "/") != "/") = true := by
        refine bne_iff_ne.mpr (fun h => ?_)
        have := congrArg String.data h
        rw [hdata2] at this
        have := congrArg List.length this
        rw [List.length_append] at this
        simp at this
        exact hdata_ne (List.eq_nil_of_length_eq_zero this)
      have hends : endsWithSlash (p ++ "/") = true := by
        simp only [endsWithSlash, hdata2, List.getLast?_concat]
        rfl
      have hlastne : ∀ c2 r, p.data.reverse = c2 :: r → (c2 == '/') = false := by
        intro c2 r hrev
        have hl : p.data.getLast? = some c2 := by
          rw [← List.head?_reverse, hrev]; rfl
        simp only [endsWithSlash, hl] at hslash
        exact hslash
      have hrstrip : pyRstripSlash (p ++ "/") = p := by
        apply String.ext
        show dropEndWhile (· == '/') (p ++ "/").data = p.data
        rw [hdata2]
        unfold dropEndWhile
        rw [List.reverse_append]
        have h2 : (['/'] : List Char).reverse ++ p.data.reverse = '/' :: p.data.reverse := by
          simp
        rw [h2, List.dropWhile_cons]
        simp only [show (('/' : Char) == '/') = true from rfl, if_true]
        cases hrev : p.data.reverse with
        | nil => simp [List.reverse_eq_nil_iff.mp hrev] at hdata_ne ⊢
        | cons c2 r =>
          rw [List.dropWhile_cons, if_neg (by rw [hlastne c2 r hrev]; simp)]
          rw [← hrev, List.reverse_reverse]
      simp only [normalizePath, hstripS, hneq, hends, Bool.and_self, if_true, hrstrip]

/-! ## Claim theorems -/

/-- Claim C6: resolution is read-only.  For every router state and every
request scope, `resolve_route` in state-passing form returns the
path-matching tree and the plain-route map unchanged — whether it succeeds,
fails `NotFound`, or fails `MethodNotAllowed` — so no child node is created
or auto-vivified and no leaf data is written during resolution. -/
theorem claim_C6_thm (st : RouteMapState) (sc : Scope) :
    (resolveRouteSt st sc).1 = st := by
  simp only [resolveRouteSt]
  exact matchPath_fst st sc

/-- Claim C7: resolving `/` on an empty router fails `NotFound`; after
registering a root route with an HTTP `GET` handler, `resolve("/", GET)`
returns that handler (resolving against the root route's own leaf data). -/
theorem claim_C7_thm :
    resolve_route emptyRM ⟨"http", some "GET", "/", []⟩ = .error .notFound ∧
    addRoutes app0 emptyRM [.http "/" [] [("GET", 42)]] = .ok stRoot ∧
    resolve_route stRoot ⟨"http", some "GET", "/", []⟩ =
      .ok (42, ⟨"http", some "GET", "/", []⟩) :=
  ⟨rfl, rfl, rfl⟩

/-- Claim C9 (amended): resolve strips leading and trailing whitespace from
the raw scope path before any normalization or matching, and a path that
matches only after whitespace removal resolves to the same handler and the
same bound path parameters as the whitespace-free path; the whitespace
stripping happens before (and in addition to) trailing-slash stripping.
(The outward-facing mount rewrite, however, applies to the raw unstripped
path, so the written-back path keeps the surrounding whitespace — see the
counterexample.) -/
theorem claim_C9_thm (st : RouteMapState) (sc : Scope) :
    resolveOutcome st sc = resolveOutcome st { sc with path := pyStrip sc.path } ∧
    normalizePath (pyStrip sc.path) = normalizePath sc.path := by
  refine ⟨?_, normalizePath_pyStrip sc.path⟩
  exact resolveOutcome_congr st sc { sc with path := pyStrip sc.path }
    (normalizePath_pyStrip sc.path).symm rfl rfl

/-- Claim C9, counterexample to "resolves identically": with a mount at
`/static`, the request `" /static/css"` returns the same handler as
`"/static/css"` but writes back `" /css"` — the prefix rewrite acts on the
raw, unstripped path, so the two resolutions are not identical. -/
theorem claim_C9_counterexample :
    resolve_route stStatic ⟨"http", some "GET", " /static/css", []⟩ =
      .ok (7, ⟨"http", some "GET", " /css", []⟩) ∧
    resolve_route stStatic ⟨"http", some "GET", "/static/css", []⟩ =
      .ok (7, ⟨"http", some "GET", "/css", []⟩) ∧
    (" /css" : String) ≠ "/css" :=
  ⟨rfl, rfl, by decide⟩

/-- Claim C3, counterexample to "a single trailing slash": the code strips
ALL trailing slashes (`rstrip("/")`), so `"/items//"` normalizes to
`"/items"` — not to `"/items/"` as single-strip normalization would — and
therefore hits the plain route `/items`. -/
theorem claim_C3_counterexample :
    normalizePath "/items//" = "/items" ∧
    normalizeSingleStripSpec "/items//" = "/items/" ∧
    ("/items" : String) ≠ "/items/" ∧
    resolve_route stItems ⟨"http", some "GET", "/items//", []⟩ =
      .ok (5, ⟨"http", some "GET", "/items//", []⟩) :=
  ⟨rfl, rfl, by decide, rfl⟩

/-- Claim C3 (amended): resolve normalizes the path by stripping whitespace
and then ALL trailing `'/'` characters (not just one) unless the stripped
path is exactly `"/"`; consequently, for every whitespace-clean nonempty
path `p` without a trailing slash — the shape of every registered
parameter-free path other than `/` — resolving `p` and `p ++ "/"` yield the
same outcome (handler or failure, and the same bound path parameters). -/
theorem claim_C3_thm (st : RouteMapState) (sc : Scope) (p : String)
    (hne : p ≠ "") (hstrip : pyStrip p = p) (hslash : endsWithSlash p = false)
    (hp : sc.path = p) :
    normalizePath (p ++ "/") = normalizePath p ∧
    resolveOutcome st sc = resolveOutcome st { sc with path := p ++ "/" } := by
  obtain ⟨h1, h2⟩ := normalizePath_slash_variant p hne hstrip hslash
  refine ⟨h2.trans h1.symm, ?_⟩
  refine resolveOutcome_congr st sc { sc with path := p ++ "/" } ?_ rfl rfl
  show normalizePath sc.path = normalizePath (p ++ "/")
  rw [hp, h1, h2]

/-- Claim C3, witness: the `/items` router resolves `/items` and `/items/`
identically. -/
theorem claim_C3_witness :
    normalizePath ("/items" ++ "/") = normalizePath "/items" ∧
    resolveOutcome stItems ⟨"http", some "GET", "/items", []⟩ =
      resolveOutcome stItems ⟨"http", some "GET", "/items" ++ "/", []⟩ :=
  claim_C3_thm stItems ⟨"http", some "GET", "/items", []⟩ "/items"
    (by decide) (by decide) (by decide) rfl

/-- Claim C4, counterexample to the diagnostic payload: the code raises
`MethodNotAllowedException()` with no arguments, so the failure carries no
set of allowed methods (here the leaf's registered methods are `["GET"]`). -/
theorem claim_C4_counterexample :
    resolve_route stItems ⟨"http", some "POST", "/items", []⟩ =
      .error (.methodNotAllowed none) ∧
    Exc.methodNotAllowed none ≠ Exc.methodNotAllowed (some ["GET"]) :=
  ⟨rfl, by decide⟩

/-- Claim C4 (amended): on a matched non-mount leaf with an HTTP scope, a
method absent from the leaf's handler mapping fails `MethodNotAllowed` (not
`NotFound`) — but the exception is constructed without any diagnostic
payload — and a present method returns its registered handler. -/
theorem claim_C4_thm (st : RouteMapState) (sc : Scope) (cur : RMTree)
    (pps : List String) (sc' : Scope) (d : LeafData) (m : String)
    (hmatch : (matchPath st sc).2 = .ok (cur, pps, sc'))
    (hdata : cur.data = some d)
    (hnotmount : d.is_asgi = false)
    (htype : sc.type = "http")
    (hmethod : sc.method = some m) :
    (alGet? d.asgi_handlers m = none →
       resolve_route st sc = .error (.methodNotAllowed none)) ∧
    (∀ h, alGet? d.asgi_handlers m = some h →
       resolve_route st sc =
         .ok (h, { sc' with path_params := parse_path_params d.path_parameters pps })) := by
  obtain ⟨ht', hm', -⟩ := matchPath_scope st sc cur pps sc' hmatch
  have hres : resolve_route st sc = dispatchHandler cur pps sc' := by
    simp only [resolve_route, resolveRouteSt, hmatch]
  have ht2 : sc'.type = "http" := ht'.trans htype
  have hm2 : sc'.method = some m := hm'.trans hmethod
  constructor
  · intro hnone
    rw [hres]
    simp [dispatchHandler, hdata, hnotmount, ht2, hm2, hnone]
  · intro h hsome
    rw [hres]
    simp [dispatchHandler, hdata, hnotmount, ht2, hm2, hsome]

/-- Claim C4, witness: on the `/items` router, `POST` fails
`MethodNotAllowed` with no payload and `GET` returns handler 5. -/
theorem claim_C4_witness :
    resolve_route stItems ⟨"http", some "POST", "/items", []⟩ =
      .error (.methodNotAllowed none) ∧
    resolve_route stItems ⟨"http", some "GET", "/items", []⟩ =
      .ok (5, ⟨"http", some "GET", "/items", []⟩) := by
  constructor
  · exact (claim_C4_thm stItems ⟨"http", some "POST", "/items", []⟩
      (.mk [] (some ⟨[], [("GET", 5)], false, ""⟩)) []
      ⟨"http", some "POST", "/items", []⟩ ⟨[], [("GET", 5)], false, ""⟩ "POST"
      rfl rfl rfl rfl rfl).1 rfl
  · exact (claim_C4_thm stItems ⟨"http", some "GET", "/items", []⟩
      (.mk [] (some ⟨[], [("GET", 5)], false, ""⟩)) []
      ⟨"http", some "GET", "/items", []⟩ ⟨[], [("GET", 5)], false, ""⟩ "GET"
      rfl rfl rfl rfl rfl).2 5 rfl

/-- Claim C5: the descent is strictly forward and non-backtracking — an
exact literal child always wins over the wildcard; otherwise the wildcard
child is taken with the segment appended to the wildcard-value list; and
once a branch is chosen no sibling is reconsidered, so with `/a/b/{y}` and
`/a/{x}/c/d` registered, `/a/b/c/d` fails `NotFound` even though the
wildcard branch (still present in the tree) would have matched, while
`/a/q/c/d` succeeds through it. -/
theorem claim_C5_thm :
    (∀ (cur child : RMTree) (c : String) (rest pp : List String) (sp : String),
        alGet? cur.children c = some child →
        (traverseSt (c :: rest) cur pp sp).2 = (traverseSt rest child pp sp).2) ∧
    (∀ (cur child : RMTree) (c : String) (rest pp : List String) (sp : String),
        alGet? cur.children c = none →
        alGet? cur.children "*" = some child →
        (traverseSt (c :: rest) cur pp sp).2 =
          (traverseSt rest child (pp ++ [c]) sp).2) ∧
    resolve_route stAmbig ⟨"http", some "GET", "/a/b/c/d", []⟩ = .error .notFound ∧
    resolve_route stAmbig ⟨"http", some "GET", "/a/q/c/d", []⟩ =
      .ok (2, ⟨"http", some "GET", "/a/q/c/d", [("x", "q")]⟩) ∧
    dataAt stAmbig.tree ["/", "a", "*", "c", "d"] =
      some ⟨[ppx], [("GET", 2)], false, ""⟩ :=
  ⟨fun cur child c rest pp sp hlit => traverseSt_lit_step cur child c rest pp sp hlit,
   fun cur child c rest pp sp hlit hw => traverseSt_wild_step cur child c rest pp sp hlit hw,
   rfl, rfl, rfl⟩

/-- Claim C5, witness: the two step rules applied at concrete nodes. -/
theorem claim_C5_witness :
    (traverseSt ["b"] (RMTree.mk [("b", RMTree.empty)] none) [] "x").2 =
      (traverseSt [] RMTree.empty [] "x").2 ∧
    (traverseSt ["q"] (RMTree.mk [("*", RMTree.empty)] none) [] "x").2 =
      (traverseSt [] RMTree.empty ["q"] "x").2 := by
  constructor
  · exact claim_C5_thm.1 (RMTree.mk [("b", RMTree.empty)] none) RMTree.empty
      "b" [] [] "x" rfl
  · exact claim_C5_thm.2.1 (RMTree.mk [("*", RMTree.empty)] none) RMTree.empty
      "q" [] [] "x" rfl rfl

/-- Claim C1, counterexample to "rewritten by removing the mount prefix":
the rewrite is `scope["path"].replace(static_path, "")`, which deletes EVERY
occurrence of the prefix, so `/static/css/static.css` is rewritten to
`/css.css` instead of `/css/static.css`. -/
theorem claim_C1_counterexample :
    addRoutes appStatic emptyRM [.asgi "/static" [] 7] = .ok stStatic ∧
    resolve_route stStatic ⟨"http", some "GET", "/static/css/static.css", []⟩ =
      .ok (7, ⟨"http", some "GET", "/css.css", []⟩) ∧
    ("/css.css" : String) ≠ "/css/static.css" :=
  ⟨rfl, rfl, by decide⟩

/-- Claim C1 (amended): with a mount at a non-root prefix, any request whose
normalized path extends the mount's tree position by further segments that
are neither children nor wildcard-matched at the mount node (and whose
normalized path is not itself a plain route) resolves via the mount's leaf
to its ASGI handler, with every remaining segment accepted implicitly; the
outward-facing path is rewritten by deleting every occurrence of the mount
prefix from the raw path (re-applied once per remaining segment), which
equals removing the leading prefix exactly when the prefix does not occur
again in the remainder — the hypothesis `hocc` below. -/
theorem claim_C1_thm (st : RouteMapState) (sc : Scope) (pcs rest : List String)
    (n : RMTree) (d : LeafData) (p suffix : String) (h : Handler)
    (hplain : alGet? st.plain_routes (normalizePath sc.path) = none)
    (hsplit : pathComponents (normalizePath sc.path) = pcs ++ rest)
    (hreach : reachesLit st.tree pcs = some n)
    (hdata : n.data = some d)
    (hmount : d.is_asgi = true)
    (hsp : d.static_path = p)
    (hp0 : p ≠ "") (hp1 : p ≠ "/")
    (hrest : rest ≠ [])
    (hchild : ∀ r ∈ rest, alGet? n.children r = none)
    (hstar : alGet? n.children "*" = none)
    (hraw : sc.path = p ++ suffix)
    (hocc : hasSubStr p suffix = false)
    (hh : alGet? d.asgi_handlers "asgi" = some h) :
    resolve_route st sc =
      .ok (h, { sc with path := suffix,
                        path_params := parse_path_params d.path_parameters [] }) := by
  have hpd : p.data ≠ [] := fun hnil => hp0 (String.ext hnil)
  have htrav : (traverseSt (pathComponents (normalizePath sc.path)) st.tree [] sc.path).2
      = .ok (n, [], suffix) := by
    rw [hsplit, traverseSt_follow pcs st.tree n rest [] sc.path hreach]
    cases rest with
    | nil => exact absurd rfl hrest
    | cons r0 rest' =>
      have h1 : alGet? n.children r0 = none := hchild r0 (List.mem_cons_self _ _)
      have hsp0 : d.static_path ≠ "" := by rw [hsp]; exact hp0
      have hsp1 : d.static_path ≠ "/" := by rw [hsp]; exact hp1
      have hrep1 : pyReplace sc.path d.static_path "" = suffix := by
        rw [hraw, hsp]
        exact pyReplace_eat p suffix hp0 hocc
      have hfix : (if d.static_path ≠ "/" then pyReplace suffix d.static_path "" else suffix)
          = suffix := by
        rw [if_pos hsp1, hsp]
        exact pyReplace_noop p suffix hocc
      obtain ⟨children, dt⟩ := n
      simp only [RMTree.children] at h1 hstar
      simp only [RMTree.data] at hdata
      subst hdata
      simp only [traverseSt, RMTree.children, RMTree.data, h1, hstar]
      rw [if_pos hsp0, if_pos hsp1, show pyReplace sc.path d.static_path "" = suffix from hrep1]
      exact traverseSt_mount_loop (.mk children (some d)) d rfl hsp0 hstar rest' [] suffix
        (fun x hx => hchild x (List.mem_cons_of_mem r0 hx)) hfix
  have hmatch : (matchPath st sc).2 = .ok (n, [], { sc with path := suffix }) := by
    simp only [matchPath, hplain, htrav]
  simp only [resolve_route, resolveRouteSt, hmatch]
  simp [dispatchHandler, hdata, hmount, hh]

/-- Claim C1, witness: the `/static` mount absorbs `/static/css/app.css` and
rewrites the outward path to `/css/app.css`. -/
theorem claim_C1_witness :
    resolve_route stStatic ⟨"http", some "GET", "/static/css/app.css", []⟩ =
      .ok (7, ⟨"http", some "GET", "/css/app.css", []⟩) :=
  claim_C1_thm stStatic ⟨"http", some "GET", "/static/css/app.css", []⟩
    ["/", "static"] ["css", "app.css"]
    (.mk [] (some ⟨[], [("asgi", 7)], true, "/static"⟩))
    ⟨[], [("asgi", 7)], true, "/static"⟩ "/static" "/css/app.css" 7
    rfl rfl rfl rfl rfl rfl (by decide) (by decide) (by decide)
    (by intro r hr; rfl) rfl rfl (by decide) rfl

/-- Claim C2: conflicting path-parameter lists at an already-parameterized
tree position fail registration with `ImproperlyConfiguredException` (a
build-time error, before any request is served), while re-registering the
identical parameter list succeeds. -/
theorem claim_C2_thm (app : App) (st : RouteMapState) (r : BaseRoute) (d : LeafData)
    (helig : r.path_parameters ≠ [] ∨ r.path ∈ app.static_paths)
    (hAt : dataAt st.tree
        (pathComponents (substituteParams r.path r.path_parameters)) = some d)
    (hne : d.path_parameters ≠ []) :
    (d.path_parameters ≠ r.path_parameters →
       addRoute app st r =
         .error (.improperlyConfigured "Routes with conflicting path parameters")) ∧
    (d.path_parameters = r.path_parameters → ∃ st', addRoute app st r = .ok st') := by
  constructor
  · intro hdiff
    have herr : updateLeaf app r (substituteParams r.path r.path_parameters)
        ((dataAt st.tree
          (pathComponents (substituteParams r.path r.path_parameters))).getD emptyLeaf)
        = .error (.improperlyConfigured "Routes with conflicting path parameters") := by
      rw [hAt]
      simp only [Option.getD_some, updateLeaf, if_pos (And.intro hne hdiff)]
    simp only [addRoute, if_pos helig,
      insertInto_error (pathComponents (substituteParams r.path r.path_parameters))
        st.tree (updateLeaf app r (substituteParams r.path r.path_parameters))
        (.improperlyConfigured "Routes with conflicting path parameters") herr]
  · intro heq
    have hok : ∃ d', updateLeaf app r (substituteParams r.path r.path_parameters)
        ((dataAt st.tree
          (pathComponents (substituteParams r.path r.path_parameters))).getD emptyLeaf)
        = .ok d' := by
      rw [hAt]
      simp only [Option.getD_some, updateLeaf]
      rw [if_neg (fun hand => hand.2 heq)]
      cases r with
      | http _ _ _ => exact ⟨_, rfl⟩
      | websocket _ _ _ => exact ⟨_, rfl⟩
      | asgi _ _ _ => exact ⟨_, rfl⟩
    obtain ⟨d', hd'⟩ := hok
    obtain ⟨t', ht'⟩ := insertInto_ok
      (pathComponents (substituteParams r.path r.path_parameters)) st.tree
      (updateLeaf app r (substituteParams r.path r.path_parameters)) d' hd'
    exact ⟨{ st with tree := t' }, by simp only [addRoute, if_pos helig, ht']⟩

/-- Claim C2, witness: registering `/a/{x}` then `/a/{y}` fails with the
conflicting-parameters configuration error; re-registering `/a/{x}` itself
succeeds. -/
theorem claim_C2_witness :
    addRoute app0 stAx rAy =
      .error (.improperlyConfigured "Routes with conflicting path parameters") ∧
    ∃ st', addRoute app0 stAx rAx = .ok st' := by
  constructor
  · exact (claim_C2_thm app0 stAx rAy ⟨[ppx], [("GET", 1)], false, ""⟩
      (Or.inl (by decide)) rfl (by decide)).1 (by decide)
  · exact (claim_C2_thm app0 stAx rAx ⟨[ppx], [("GET", 1)], false, ""⟩
      (Or.inl (by decide)) rfl (by decide)).2 rfl

/-- Claim C8: duplicate dispatch keys at the same leaf do not fail
registration — the later handler overwrites the earlier one (dict update,
last write wins) and subsequent resolution returns the later handler; shown
in general for a plain-route leaf and concretely for a tree leaf. -/
theorem claim_C8_thm :
    (∀ (app : App) (st : RouteMapState) (path k : String) (h1 h2 : Handler),
       alGet? st.plain_routes path = none →
       path ∉ app.static_paths →
       normalizePath path = path →
       ∃ st', addRoutes app st [.http path [] [(k, h1)], .http path [] [(k, h2)]]
           = .ok st' ∧
         resolve_route st' ⟨"http", some k, path, []⟩ =
           .ok (h2, ⟨"http", some k, path, []⟩)) ∧
    (addRoutes app0 emptyRM [rDup1, rDup2] = .ok stDup ∧
     resolve_route stDup ⟨"http", some "GET", "/t/v", []⟩ =
       .ok (12, ⟨"http", some "GET", "/t/v", [("x", "v")]⟩)) := by
  refine ⟨?_, rfl, rfl⟩
  intro app st path k h1 h2 hplain hstatic hnorm
  have hnelig : ¬((BaseRoute.http path [] [(k, h1)]).path_parameters ≠ [] ∨
      (BaseRoute.http path [] [(k, h1)]).path ∈ app.static_paths) := by
    simp [BaseRoute.path_parameters, BaseRoute.path, hstatic]
  have hnelig2 : ¬((BaseRoute.http path [] [(k, h2)]).path_parameters ≠ [] ∨
      (BaseRoute.http path [] [(k, h2)]).path ∈ app.static_paths) := by
    simp [BaseRoute.path_parameters, BaseRoute.path, hstatic]
  have hupd1 : updateLeaf app (.http path [] [(k, h1)]) path emptyLeaf =
      .ok ⟨[], [(k, h1)], false, ""⟩ := by
    simp only [updateLeaf, BaseRoute.path_parameters]
    rw [if_neg (fun hand => hand.1 rfl), if_neg hstatic]
    rfl
  have hupd2 : updateLeaf app (.http path [] [(k, h2)]) path
      ⟨[], [(k, h1)], false, ""⟩ = .ok ⟨[], [(k, h2)], false, ""⟩ := by
    simp only [updateLeaf, BaseRoute.path_parameters]
    rw [if_neg (fun hand => hand.1 rfl), if_neg hstatic]
    simp [alSet]
  have hadd1 : addRoute app st (.http path [] [(k, h1)]) =
      .ok ⟨alSet st.plain_routes path (.mk [] (some ⟨[], [(k, h1)], false, ""⟩)), st.tree⟩ := by
    simp only [addRoute, BaseRoute.path, BaseRoute.path_parameters]
    rw [if_neg (by simp [hstatic])]
    rw [hplain]
    simp only [Option.getD_none, RMTree.empty, RMTree.data, RMTree.children, hupd1]
  have hget1 : alGet? (alSet st.plain_routes path
      (RMTree.mk [] (some ⟨[], [(k, h1)], false, ""⟩))) path =
      some (RMTree.mk [] (some ⟨[], [(k, h1)], false, ""⟩)) :=
    alGet?_alSet_self st.plain_routes path _
  have hadd2 : addRoute app
      ⟨alSet st.plain_routes path (.mk [] (some ⟨[], [(k, h1)], false, ""⟩)), st.tree⟩
      (.http path [] [(k, h2)]) =
      .ok ⟨alSet (alSet st.plain_routes path (.mk [] (some ⟨[], [(k, h1)], false, ""⟩)))
             path (.mk [] (some ⟨[], [(k, h2)], false, ""⟩)), st.tree⟩ := by
    simp only [addRoute, BaseRoute.path, BaseRoute.path_parameters]
    rw [if_neg (by simp [hstatic])]
    simp only [hget1, Option.getD_some, RMTree.data, RMTree.children, hupd2]
  have hget2 : alGet? (alSet (alSet st.plain_routes path
      (RMTree.mk [] (some ⟨[], [(k, h1)], false, ""⟩))) path
      (RMTree.mk [] (some ⟨[], [(k, h2)], false, ""⟩))) path =
      some (RMTree.mk [] (some ⟨[], [(k, h2)], false, ""⟩)) :=
    alGet?_alSet_self _ path _
  refine ⟨⟨alSet (alSet st.plain_routes path (.mk [] (some ⟨[], [(k, h1)], false, ""⟩)))
      path (.mk [] (some ⟨[], [(k, h2)], false, ""⟩)), st.tree⟩, ?_, ?_⟩
  · simp only [addRoutes, hadd1, hadd2]
  · simp only [resolve_route, resolveRouteSt, matchPath, hnorm, hget2]
    simp [dispatchHandler, RMTree.data, parse_path_params, alGet?]

/-- Claim C8, witness: registering `/p` twice under `GET` succeeds and
resolves to the second handler. -/
theorem claim_C8_witness :
    ∃ st', addRoutes app0 emptyRM
        [.http "/p" [] [("GET", 1)], .http "/p" [] [("GET", 2)]] = .ok st' ∧
      resolve_route st' ⟨"http", some "GET", "/p", []⟩ =
        .ok (2, ⟨"http", some "GET", "/p", []⟩) :=
  claim_C8_thm.1 app0 emptyRM "/p" "GET" 1 2 rfl (by decide) (by decide)

/-- Claim C10: on a matched leaf, a missing `"websocket"` handler for a
non-HTTP scope and a missing `"asgi"` handler on a mount both fail
`NotFound` (the blanket `KeyError` handler), never `MethodNotAllowed`; and
conversely every `MethodNotAllowed` failure arises from a matched non-mount
leaf, an HTTP scope, and a method absent from the leaf's handlers. -/
theorem claim_C10_thm :
    (∀ (st : RouteMapState) (sc : Scope) (cur : RMTree) (pps : List String)
       (sc' : Scope) (d : LeafData),
       (matchPath st sc).2 = .ok (cur, pps, sc') → cur.data = some d →
       d.is_asgi = false → sc.type ≠ "http" →
       alGet? d.asgi_handlers "websocket" = none →
       resolve_route st sc = .error .notFound) ∧
    (∀ (st : RouteMapState) (sc : Scope) (cur : RMTree) (pps : List String)
       (sc' : Scope) (d : LeafData),
       (matchPath st sc).2 = .ok (cur, pps, sc') → cur.data = some d →
       d.is_asgi = true →
       alGet? d.asgi_handlers "asgi" = none →
       resolve_route st sc = .error .notFound) ∧
    (∀ (st : RouteMapState) (sc : Scope) (x : Option (List String)),
       resolve_route st sc = .error (.methodNotAllowed x) →
       ∃ cur pps sc' d m, (matchPath st sc).2 = .ok (cur, pps, sc') ∧
         cur.data = some d ∧ d.is_asgi = false ∧ sc.type = "http" ∧
         sc.method = some m ∧ alGet? d.asgi_handlers m = none) := by
  refine ⟨?_, ?_, ?_⟩
  · intro st sc cur pps sc' d hmatch hdata hnm htype hws
    obtain ⟨ht', hm', -⟩ := matchPath_scope st sc cur pps sc' hmatch
    have hres : resolve_route st sc = dispatchHandler cur pps sc' := by
      simp only [resolve_route, resolveRouteSt, hmatch]
    have ht2 : sc'.type ≠ "http" := fun hcon => htype (ht' ▸ hcon)
    rw [hres]
    simp [dispatchHandler, hdata, hnm, ht2, hws]
  · intro st sc cur pps sc' d hmatch hdata hm hasgi
    have hres : resolve_route st sc = dispatchHandler cur pps sc' := by
      simp only [resolve_route, resolveRouteSt, hmatch]
    rw [hres]
    simp [dispatchHandler, hdata, hm, hasgi]
  · intro st sc x hr
    simp only [resolve_route, resolveRouteSt] at hr
    cases hm : (matchPath st sc).2 with
    | error e =>
      rw [hm] at hr
      obtain rfl : e = .methodNotAllowed x := by simpa using hr
      exact absurd (matchPath_error_notFound st sc _ hm) (by simp)
    | ok r =>
      rw [hm] at hr
      obtain ⟨cur, pps, sc'⟩ := r
      obtain ⟨ht', hm', -⟩ := matchPath_scope st sc cur pps sc' hm
      simp only [dispatchHandler] at hr
      cases hdata : cur.data with
      | none => rw [hdata] at hr; simp at hr
      | some d =>
        rw [hdata] at hr
        simp only [] at hr
        by_cases ha : d.is_asgi
        · rw [if_pos ha] at hr
          cases hasgi : alGet? d.asgi_handlers "asgi" with
          | some h0 => rw [hasgi] at hr; simp at hr
          | none => rw [hasgi] at hr; simp at hr
        · rw [if_neg ha] at hr
          by_cases hh : sc'.type = "http"
          · rw [if_pos hh] at hr
            cases hmeth : sc'.method with
            | none => simp only [hmeth] at hr; simp at hr
            | some m =>
              simp only [hmeth] at hr
              cases halg : alGet? d.asgi_handlers m with
              | some h0 => simp only [halg] at hr; simp at hr
              | none =>
                refine ⟨cur, pps, sc', d, m, rfl, hdata, ?_,
                  ht'.symm.trans hh, hm'.symm.trans hmeth, halg⟩
                simpa using ha
          · rw [if_neg hh] at hr
            cases hws : alGet? d.asgi_handlers "websocket" with
            | some h0 => simp only [hws] at hr; simp at hr
            | none => simp only [hws] at hr; simp at hr

/-- Claim C10, witness: a WebSocket request on the HTTP-only `/items` leaf
fails `NotFound`, and an HTTP request on the `/s` mount leaf that has no
`"asgi"` handler also fails `NotFound`. -/
theorem claim_C10_witness :
    resolve_route stItems ⟨"websocket", none, "/items", []⟩ = .error .notFound ∧
    resolve_route stS2 ⟨"http", some "GET", "/s", []⟩ = .error .notFound := by
  constructor
  · exact claim_C10_thm.1 stItems ⟨"websocket", none, "/items", []⟩
      (.mk [] (some ⟨[], [("GET", 5)], false, ""⟩)) []
      ⟨"websocket", none, "/items", []⟩ ⟨[], [("GET", 5)], false, ""⟩
      rfl rfl rfl (by decide) rfl
  · exact claim_C10_thm.2.1 stS2 ⟨"http", some "GET", "/s", []⟩
      (.mk [] (some ⟨[], [("GET", 9)], true, "/s"⟩)) []
      ⟨"http", some "GET", "/s", []⟩ ⟨[], [("GET", 9)], true, "/s"⟩
      rfl rfl rfl rfl
